import Mathlib

/-!
Verification of the neighborhood-operator filtering engine
(`itkNeighborhoodOperatorImageFilter.h`) and the video handler factory
(`itkVideoIOFactory.cxx`).

The engine's per-region body (`DynamicThreadedGenerateData`) and the region
calculator body (`GenerateInputRequestedRegion`) live in a `.hxx` file that is
not part of the sampled sources; those two are modelled from the spec
(sections 4.1-4.3), as marked on their doc comments.  Everything declared
inline in the sampled header (`SetOperator`, `GetOperator`,
`OverrideBoundaryCondition`, `GetBoundaryCondition`, the constructor) and the
whole of `VideoIOFactory::CreateVideoIO` is translated directly from the
source.
-/

namespace ITK

/-- An axis-aligned region of an n-dimensional grid: an origin index and a
size per axis (sizes are non-negative; a zero size on any axis makes the
region empty). -/
structure Region (n : ℕ) where
  index : Fin n → ℤ
  size : Fin n → ℕ

/-- A coordinate lies in a region when, on every axis, it is at least the
origin and strictly below origin + size. -/
def inRegion {n : ℕ} (r : Region n) (c : Fin n → ℤ) : Prop :=
  ∀ i : Fin n, r.index i ≤ c i ∧ c i < r.index i + r.size i

instance {n : ℕ} (r : Region n) (c : Fin n → ℤ) : Decidable (inRegion r c) := by
  unfold inRegion
  infer_instance

/-- An n-dimensional image: its full valid extent together with its pixel
values (only values at coordinates of the extent are ever read directly). -/
structure Image (n : ℕ) where
  extent : Region n
  pix : (Fin n → ℤ) → ℤ

/-- Clamp a coordinate, axis by axis, to the nearest valid index of the
extent. -/
def clampCoord {n : ℕ} (ext : Region n) (c : Fin n → ℤ) : Fin n → ℤ :=
  fun i => max (ext.index i) (min (c i) (ext.index i + ext.size i - 1))

/-- A boundary policy resolves any coordinate, in or out of bounds, to a
substitute pixel value for the given image. -/
def BoundaryPolicy (n : ℕ) : Type :=
  Image n → (Fin n → ℤ) → ℤ

/-- The default boundary condition `ZeroFluxNeumannBoundaryCondition`:
clamp each axis to the nearest valid index and look the result up. -/
def ZeroFluxNeumannBoundaryCondition {n : ℕ} : BoundaryPolicy n :=
  fun img c => img.pix (clampCoord img.extent c)

/-- Neighborhood pixel fetch: direct grid lookup for an in-bounds
coordinate, boundary-policy lookup otherwise. -/
def valueAt {n : ℕ} (img : Image n) (bc : BoundaryPolicy n) (c : Fin n → ℤ) : ℤ :=
  if inRegion img.extent c then img.pix c else bc img c

/-- A neighborhood operator (kernel): a per-axis radius and a weight for
every offset of its footprint. -/
structure Kernel (n : ℕ) where
  radius : Fin n → ℕ
  weight : (Fin n → ℤ) → ℤ

/-- The kernel footprint: all offsets whose component on axis i lies in
[-radius i, radius i]. -/
def footprint {n : ℕ} (r : Fin n → ℕ) : Finset (Fin n → ℤ) :=
  Fintype.piFinset fun i => Finset.Icc (-(r i : ℤ)) (r i)

/-- Modelled from the spec: the per-pixel weighted sum of algorithm 4.3
(the body of `DynamicThreadedGenerateData` is in the `.hxx`, absent from the
sampled sources).  The accumulation runs over the exact (higher-precision)
type; weights are applied at offset `+o`, i.e. this is a correlation. -/
def innerProduct {n : ℕ} (img : Image n) (bc : BoundaryPolicy n) (k : Kernel n)
    (c : Fin n → ℤ) : ℤ :=
  ∑ o ∈ footprint k.radius, k.weight o * valueAt img bc (c + o)

/-- Modelled from the spec: `Apply` of algorithm 4.3 / the engine body
`DynamicThreadedGenerateData` (absent from the sampled sources).  Every
coordinate of the assigned sub-region receives the inner product, narrowed
by `castOut` to the output storage type; every other coordinate keeps its
previous output value. -/
def Apply {n : ℕ} (img : Image n) (bc : BoundaryPolicy n) (k : Kernel n)
    (castOut : ℤ → ℤ) (region : Region n) (out : (Fin n → ℤ) → ℤ) :
    (Fin n → ℤ) → ℤ :=
  fun c => if inRegion region c then castOut (innerProduct img bc k c) else out c

/-- The concrete 1-D grid `[1,2,3,4,5]` on extent [0,5). -/
def img15 : Image 1 :=
  { extent := { index := fun _ => 0, size := fun _ => 5 },
    pix := fun c => ([1, 2, 3, 4, 5] : List ℤ).getD (c 0).toNat 0 }

/-- The radius-1 box kernel with weights `[1,1,1]`. -/
def boxKernel1 : Kernel 1 :=
  { radius := fun _ => 1, weight := fun _ => 1 }

/-- Modelled from the spec: the parallel partitioner invokes the engine once
per sub-region, in list order; each invocation reads the same input image and
updates the output grid. -/
def ApplyList {n : ℕ} (img : Image n) (bc : BoundaryPolicy n) (k : Kernel n)
    (castOut : ℤ → ℤ) (rs : List (Region n)) (out : (Fin n → ℤ) → ℤ) :
    (Fin n → ℤ) → ℤ :=
  rs.foldl (fun acc r => Apply img bc k castOut r acc) out

/-- Pad a region by the kernel radius: on each axis the origin drops by the
radius and the size grows by twice the radius (spec 4.1). -/
def PadByRadius {n : ℕ} (r : Region n) (rad : Fin n → ℕ) : Region n :=
  { index := fun i => r.index i - rad i,
    size := fun i => r.size i + 2 * rad i }

/-- Intersection (clip) of two regions: componentwise max of the origins and
min of the exclusive upper bounds; an axis with no overlap gets size 0. -/
def IntersectRegion {n : ℕ} (a b : Region n) : Region n :=
  { index := fun i => max (a.index i) (b.index i),
    size := fun i =>
      (min (a.index i + a.size i) (b.index i + b.size i)
        - max (a.index i) (b.index i)).toNat }

/-- A region is empty when some axis has size zero. -/
def regionIsEmpty {n : ℕ} (r : Region n) : Prop :=
  ∃ i, r.size i = 0

instance {n : ℕ} (r : Region n) : Decidable (regionIsEmpty r) := by
  unfold regionIsEmpty
  infer_instance

/-- Modelled from the spec: `GenerateInputRequestedRegion` (its body is in the
`.hxx`, absent from the sampled sources).  Pads the requested output region by
the kernel radius, clips the result against the full input extent, and
reports an error when the clipped region is empty (spec 4.1). -/
def GenerateInputRequestedRegion {n : ℕ} (outputRegion : Region n)
    (rad : Fin n → ℕ) (fullInputExtent : Region n) : Except String (Region n) :=
  let requested := IntersectRegion (PadByRadius outputRegion rad) fullInputExtent
  if regionIsEmpty requested then
    Except.error "Requested region is outside the largest possible region."
  else
    Except.ok requested

/-- The offset-reversed (mirrored) kernel: same radii, weight of offset `o`
taken from offset `-o`. -/
def mirrorKernel {n : ℕ} (k : Kernel n) : Kernel n :=
  { radius := k.radius, weight := fun o => k.weight (-o) }

/-- A kernel is symmetric about its center when every footprint offset and
its negation carry the same weight. -/
def symmetricKernel {n : ℕ} (k : Kernel n) : Prop :=
  ∀ o ∈ footprint k.radius, k.weight (-o) = k.weight o

instance {n : ℕ} (k : Kernel n) : Decidable (symmetricKernel k) := by
  unfold symmetricKernel
  infer_instance

/-- True convolution at a coordinate: each weight is applied at offset `-o`,
the mirror image of where the engine applies it. -/
def convolutionAt {n : ℕ} (img : Image n) (bc : BoundaryPolicy n) (k : Kernel n)
    (c : Fin n → ℤ) : ℤ :=
  ∑ o ∈ footprint k.radius, k.weight o * valueAt img bc (c - o)

/-- A boundary-condition pointer as stored by the filter: null, the address
of the engine-owned `m_DefaultBoundaryCondition` member, or an external
caller-owned condition object. -/
inductive ImageBoundaryConditionPointerType (n : ℕ) where
  | null : ImageBoundaryConditionPointerType n
  | defaultNeumann : ImageBoundaryConditionPointerType n
  | custom : BoundaryPolicy n → ImageBoundaryConditionPointerType n

/-- The configuration state of a `NeighborhoodOperatorImageFilter`: the
internally stored operator copy, the boundary-condition pointer, and the
modification time that `this->Modified()` bumps. -/
structure NeighborhoodOperatorImageFilter (n : ℕ) where
  m_Operator : Kernel n
  m_BoundsCondition : ImageBoundaryConditionPointerType n
  mtime : ℕ

/-- The constructor: `m_BoundsCondition` is pointed at the engine-owned
default boundary condition member (a `ZeroFluxNeumannBoundaryCondition`). -/
def mkNeighborhoodOperatorImageFilter {n : ℕ} (initialOperator : Kernel n) :
    NeighborhoodOperatorImageFilter n :=
  { m_Operator := initialOperator,
    m_BoundsCondition := ImageBoundaryConditionPointerType.defaultNeumann,
    mtime := 0 }

/-- `SetOperator`: store an internal copy of the argument and call
`this->Modified()`. -/
def SetOperator {n : ℕ} (p : Kernel n) (s : NeighborhoodOperatorImageFilter n) :
    NeighborhoodOperatorImageFilter n :=
  { s with m_Operator := p, mtime := s.mtime + 1 }

/-- `GetOperator`: return the stored operator. -/
def GetOperator {n : ℕ} (s : NeighborhoodOperatorImageFilter n) : Kernel n :=
  s.m_Operator

/-- `OverrideBoundaryCondition`: replace the stored pointer by the argument
(no null check is made). -/
def OverrideBoundaryCondition {n : ℕ} (i : ImageBoundaryConditionPointerType n)
    (s : NeighborhoodOperatorImageFilter n) : NeighborhoodOperatorImageFilter n :=
  { s with m_BoundsCondition := i }

/-- `GetBoundaryCondition`: return the stored pointer. -/
def GetBoundaryCondition {n : ℕ} (s : NeighborhoodOperatorImageFilter n) :
    ImageBoundaryConditionPointerType n :=
  s.m_BoundsCondition

/-- Dereference a boundary-condition pointer.  The default member is the
ZeroFluxNeumann condition.  Dereferencing a null pointer is undefined in the
source; the model returns the constant-0 policy there and no theorem relies
on that value. -/
def resolveBoundaryCondition {n : ℕ} :
    ImageBoundaryConditionPointerType n → BoundaryPolicy n
  | ImageBoundaryConditionPointerType.null => fun _ _ => 0
  | ImageBoundaryConditionPointerType.defaultNeumann => ZeroFluxNeumannBoundaryCondition
  | ImageBoundaryConditionPointerType.custom p => p

/-- Run the filter on a sub-region using its stored configuration. -/
def runFilterRegion {n : ℕ} (s : NeighborhoodOperatorImageFilter n) (img : Image n)
    (castOut : ℤ → ℤ) (region : Region n) (out : (Fin n → ℤ) → ℤ) :
    (Fin n → ℤ) → ℤ :=
  Apply img (resolveBoundaryCondition s.m_BoundsCondition) s.m_Operator castOut region out

/-- Scalar pixel component types, with their precision in value/significand
bits (8, 15, 31, 24 and 53 respectively). -/
inductive PixelComponentType where
  | uint8 : PixelComponentType
  | int16 : PixelComponentType
  | int32 : PixelComponentType
  | float32 : PixelComponentType
  | float64 : PixelComponentType
deriving DecidableEq

/-- Value/significand bits of each pixel component type. -/
def precisionBits : PixelComponentType → ℕ
  | PixelComponentType.uint8 => 8
  | PixelComponentType.int16 => 15
  | PixelComponentType.int32 => 31
  | PixelComponentType.float32 => 24
  | PixelComponentType.float64 => 53

/-- Output storage component types the engine is instantiated at. -/
def storageInstantiations : List PixelComponentType :=
  [PixelComponentType.uint8, PixelComponentType.int16,
   PixelComponentType.int32, PixelComponentType.float32]

/-- Modelled from the spec: `ComputingPixelType` is
`NumericTraits<OutputPixelType>::RealType` in the sampled header, but the
`NumericTraits` definition is absent from the sampled sources; the spec fixes
the accumulation type as a higher-precision numeric type distinct from the
storage type, here the 53-bit `float64`. -/
def ComputingPixelType : PixelComponentType → PixelComponentType :=
  fun _ => PixelComponentType.float64

/-- The I/O mode argument of `CreateVideoIO`. -/
inductive IOModeEnum where
  | ReadFileMode : IOModeEnum
  | ReadCameraMode : IOModeEnum
  | WriteMode : IOModeEnum

/-- A `VideoIOBase` candidate, reduced to its capability queries. -/
structure VideoIOBase where
  CanReadFile : String → Bool
  CanReadCamera : ℤ → Bool
  CanWriteFile : String → Bool

/-- The capability query matching the mode; `std::stoi` is abstracted as the
`stoi` argument. -/
def capabilityQuery (stoi : String → ℤ) (mode : IOModeEnum) (arg : String)
    (v : VideoIOBase) : Bool :=
  match mode with
  | IOModeEnum.ReadFileMode => v.CanReadFile arg
  | IOModeEnum.ReadCameraMode => v.CanReadCamera (stoi arg)
  | IOModeEnum.WriteMode => v.CanWriteFile arg

/-- The first loop of `CreateVideoIO`: each registered object created for the
"itkVideoIOBase" key is `dynamic_cast` to `VideoIOBase` (`none` models an
object that is not one); a failed cast raises the exception immediately, a
successful cast appends to `possibleVideoIO`. -/
def collectVideoCandidates :
    List (Option VideoIOBase) → Except String (List VideoIOBase)
  | [] => Except.ok []
  | none :: _ => Except.error "VideoIO factory did not return a VideoIOBase"
  | some v :: rest => (collectVideoCandidates rest).map (v :: ·)

/-- `VideoIOFactory::CreateVideoIO`: collect the registered candidates
(raising on any failed cast), then probe them in registration order with the
capability query matching the mode and return the first affirmative one;
`Except.ok none` models returning the null pointer. -/
def CreateVideoIO (stoi : String → ℤ) (registered : List (Option VideoIOBase))
    (mode : IOModeEnum) (arg : String) : Except String (Option VideoIOBase) :=
  (collectVideoCandidates registered).map fun cs =>
    cs.find? (capabilityQuery stoi mode arg)

/-- An image whose extent is exactly one kernel footprint around the origin
and whose only non-zero pixel (value 1) sits at `o₀`. -/
def deltaImage {n : ℕ} (r : Fin n → ℕ) (o₀ : Fin n → ℤ) : Image n :=
  { extent := { index := fun i => -(r i : ℤ), size := fun i => 2 * r i + 1 },
    pix := fun c => if c = o₀ then 1 else 0 }

/-- The 1-D kernel with radius 1 that only weights the left neighbor
(weights `[1,0,0]`); it is not symmetric about its center. -/
def shiftKernelLeft : Kernel 1 :=
  { radius := fun _ => 1, weight := fun o => if o 0 = -1 then 1 else 0 }

/-- A candidate that answers no to everything. -/
def videoHandlerNo : VideoIOBase :=
  { CanReadFile := fun _ => false, CanReadCamera := fun _ => false,
    CanWriteFile := fun _ => false }

/-- A candidate that answers yes to everything. -/
def videoHandlerYes : VideoIOBase :=
  { CanReadFile := fun _ => true, CanReadCamera := fun _ => true,
    CanWriteFile := fun _ => true }

/-- Membership in a 1-D region reduces to the single axis. -/
lemma inRegion_one (r : Region 1) (c : Fin 1 → ℤ) :
    inRegion r c ↔ r.index 0 ≤ c 0 ∧ c 0 < r.index 0 + r.size 0 := by
  constructor
  · exact fun h => h 0
  · intro h i
    have hi : i = 0 := Subsingleton.elim i 0
    rw [hi]
    exact h

/-- A coordinate covered by none of the sub-regions keeps its previous output
value after all invocations. -/
lemma applyList_untouched {n : ℕ} (img : Image n) (bc : BoundaryPolicy n) (k : Kernel n)
    (castOut : ℤ → ℤ) (rs : List (Region n)) (out : (Fin n → ℤ) → ℤ) (c : Fin n → ℤ)
    (h : ∀ r ∈ rs, ¬ inRegion r c) :
    ApplyList img bc k castOut rs out c = out c := by
  induction rs generalizing out with
  | nil => rfl
  | cons r rest ih =>
    have hstep : ApplyList img bc k castOut (r :: rest) out
        = ApplyList img bc k castOut rest (Apply img bc k castOut r out) := rfl
    rw [hstep, ih (Apply img bc k castOut r out)
      (fun r' hr' => h r' (List.mem_cons_of_mem r hr'))]
    unfold Apply
    rw [if_neg (h r (List.mem_cons_self r rest))]

/-- A coordinate covered by some sub-region in the list ends up holding the
narrowed inner product, whatever the rest of the list does. -/
lemma applyList_covered {n : ℕ} (img : Image n) (bc : BoundaryPolicy n) (k : Kernel n)
    (castOut : ℤ → ℤ) (rs : List (Region n)) (out : (Fin n → ℤ) → ℤ) (c : Fin n → ℤ)
    (h : ∃ r ∈ rs, inRegion r c) :
    ApplyList img bc k castOut rs out c = castOut (innerProduct img bc k c) := by
  induction rs generalizing out with
  | nil => simp at h
  | cons r rest ih =>
    have hstep : ApplyList img bc k castOut (r :: rest) out
        = ApplyList img bc k castOut rest (Apply img bc k castOut r out) := rfl
    rw [hstep]
    by_cases hrest : ∃ r' ∈ rest, inRegion r' c
    · exact ih (Apply img bc k castOut r out) hrest
    · have hr : inRegion r c := by
        rcases h with ⟨r', hr', hc'⟩
        rcases List.mem_cons.mp hr' with heq | hmem
        · rw [← heq]; exact hc'
        · exact absurd ⟨r', hmem, hc'⟩ hrest
      rw [applyList_untouched img bc k castOut rest _ c
        (fun r' hr' hc' => hrest ⟨r', hr', hc'⟩)]
      unfold Apply
      rw [if_pos hr]

/-- One axis of the intersection: clipping the half-open interval
[lo1, hi1) against [lo2, hi2). -/
lemma interval_intersect_mem (lo1 hi1 lo2 hi2 x : ℤ) :
    (max lo1 lo2 ≤ x ∧ x < max lo1 lo2 + ((min hi1 hi2 - max lo1 lo2).toNat : ℤ)) ↔
      ((lo1 ≤ x ∧ x < hi1) ∧ (lo2 ≤ x ∧ x < hi2)) := by
  simp only [max_def, min_def]
  split_ifs <;> omega

/-- Membership in the intersection is membership in both regions. -/
lemma inRegion_intersect {n : ℕ} (a b : Region n) (c : Fin n → ℤ) :
    inRegion (IntersectRegion a b) c ↔ inRegion a c ∧ inRegion b c := by
  unfold inRegion IntersectRegion
  simp only [← forall_and]
  refine forall_congr' fun i => ?_
  exact interval_intersect_mem (a.index i) (a.index i + a.size i)
    (b.index i) (b.index i + b.size i) (c i)

/-- A region is empty exactly when it has no member coordinate. -/
lemma regionIsEmpty_iff_no_member {n : ℕ} (r : Region n) :
    regionIsEmpty r ↔ ¬ ∃ c, inRegion r c := by
  unfold regionIsEmpty inRegion
  constructor
  · rintro ⟨i, hi⟩ ⟨c, hc⟩
    have hci := hc i
    omega
  · intro h
    by_contra hne
    push_neg at hne
    exact h ⟨r.index, fun i => ⟨le_refl _, by have hi := hne i; omega⟩⟩

/-- C1: on the 1-D grid [1,2,3,4,5] with the radius-1 box kernel [1,1,1] and
the default zero-flux (clamp-to-nearest-valid-index) boundary policy, the
engine applied over the full region produces 4 at index 0 (the left neighbor
clamps to index 0), 9 at index 2, and 14 at index 4 (the right neighbor
clamps to index 4). -/
theorem padding_correctness_box_kernel :
    Apply img15 ZeroFluxNeumannBoundaryCondition boxKernel1 id
        { index := fun _ => 0, size := fun _ => 5 } (fun _ => 0) (fun _ => 0) = 4 ∧
    Apply img15 ZeroFluxNeumannBoundaryCondition boxKernel1 id
        { index := fun _ => 0, size := fun _ => 5 } (fun _ => 0) (fun _ => 2) = 9 ∧
    Apply img15 ZeroFluxNeumannBoundaryCondition boxKernel1 id
        { index := fun _ => 0, size := fun _ => 5 } (fun _ => 0) (fun _ => 4) = 14 := by
  refine ⟨by decide, by decide, by decide⟩

/-- C2: `GenerateInputRequestedRegion` pads the output region by the radius
on every axis (origin − radius, size + 2·radius), intersects the padded
region with the full input extent, and reports an error exactly when that
intersection is empty. -/
theorem generate_input_requested_region_spec {n : ℕ} (outputRegion : Region n)
    (rad : Fin n → ℕ) (fullInputExtent : Region n) :
    ((PadByRadius outputRegion rad).index = fun i => outputRegion.index i - rad i) ∧
    ((PadByRadius outputRegion rad).size = fun i => outputRegion.size i + 2 * rad i) ∧
    (∀ reg, GenerateInputRequestedRegion outputRegion rad fullInputExtent = Except.ok reg →
      ∀ c, inRegion reg c ↔
        inRegion (PadByRadius outputRegion rad) c ∧ inRegion fullInputExtent c) ∧
    ((∃ e, GenerateInputRequestedRegion outputRegion rad fullInputExtent = Except.error e) ↔
      ¬ ∃ c, inRegion (PadByRadius outputRegion rad) c ∧ inRegion fullInputExtent c) := by
  refine ⟨rfl, rfl, ?_, ?_⟩
  · intro reg hreg c
    unfold GenerateInputRequestedRegion at hreg
    by_cases hemp :
        regionIsEmpty (IntersectRegion (PadByRadius outputRegion rad) fullInputExtent)
    · rw [if_pos hemp] at hreg
      exact absurd hreg (by simp)
    · rw [if_neg hemp] at hreg
      cases hreg
      exact inRegion_intersect _ _ c
  · unfold GenerateInputRequestedRegion
    constructor
    · rintro ⟨e, he⟩ ⟨c, hc⟩
      by_cases hemp :
          regionIsEmpty (IntersectRegion (PadByRadius outputRegion rad) fullInputExtent)
      · exact (regionIsEmpty_iff_no_member _).mp hemp
          ⟨c, (inRegion_intersect _ _ c).mpr hc⟩
      · rw [if_neg hemp] at he
        exact absurd he (by simp)
    · intro h
      have hemp :
          regionIsEmpty (IntersectRegion (PadByRadius outputRegion rad) fullInputExtent) :=
        (regionIsEmpty_iff_no_member _).mpr
          (fun hex => h (by
            rcases hex with ⟨c, hc⟩
            exact ⟨c, (inRegion_intersect _ _ c).mp hc⟩))
      exact ⟨_, by rw [if_pos hemp]⟩

/-- C2 witness: a concrete call returns the clipped region and its membership
is the conjunction of the padded-region and full-extent memberships. -/
theorem generate_input_requested_region_witness :
    ∃ reg : Region 1, GenerateInputRequestedRegion
        { index := fun _ => 2, size := fun _ => 3 } (fun _ => 1)
        { index := fun _ => 0, size := fun _ => 10 } = Except.ok reg ∧
      (inRegion reg (fun _ => 3) ↔
        inRegion (PadByRadius ({ index := fun _ => 2, size := fun _ => 3 } : Region 1)
            (fun _ => 1)) (fun _ => 3) ∧
        inRegion ({ index := fun _ => 0, size := fun _ => 10 } : Region 1) (fun _ => 3)) := by
  refine ⟨IntersectRegion
      (PadByRadius ({ index := fun _ => 2, size := fun _ => 3 } : Region 1) (fun _ => 1))
      { index := fun _ => 0, size := fun _ => 10 }, ?_, ?_⟩
  · rfl
  · exact (generate_input_requested_region_spec
      ({ index := fun _ => 2, size := fun _ => 3 } : Region 1) (fun _ => 1)
      { index := fun _ => 0, size := fun _ => 10 }).2.2.1 _ rfl (fun _ => 3)

/-- C3: for any family of sub-regions that partitions the full output region
(disjoint, jointly covering), invoking the engine once per sub-region in list
order produces, at every coordinate, the same value as one invocation over
the full region. -/
theorem region_splitting_invariance {n : ℕ} (img : Image n) (bc : BoundaryPolicy n)
    (k : Kernel n) (castOut : ℤ → ℤ) (full : Region n) (rs : List (Region n))
    (out : (Fin n → ℤ) → ℤ)
    (hcover : ∀ c, inRegion full c ↔ ∃ r ∈ rs, inRegion r c)
    (_hdisj : rs.Pairwise fun a b => ∀ c, ¬ (inRegion a c ∧ inRegion b c)) :
    ∀ c, ApplyList img bc k castOut rs out c = Apply img bc k castOut full out c := by
  intro c
  by_cases hc : inRegion full c
  · rw [applyList_covered img bc k castOut rs out c ((hcover c).mp hc)]
    unfold Apply
    rw [if_pos hc]
  · rw [applyList_untouched img bc k castOut rs out c
      (fun r hr hcr => hc ((hcover c).mpr ⟨r, hr, hcr⟩))]
    unfold Apply
    rw [if_neg hc]

/-- C3 witness: splitting [0,5) into [0,2) and [2,5) gives the same value at
coordinate 1 as the single full-region invocation. -/
theorem region_splitting_invariance_witness :
    ApplyList img15 ZeroFluxNeumannBoundaryCondition boxKernel1 id
        [{ index := fun _ => 0, size := fun _ => 2 },
         { index := fun _ => 2, size := fun _ => 3 }]
        (fun _ => 0) (fun _ => 1)
      = Apply img15 ZeroFluxNeumannBoundaryCondition boxKernel1 id
          { index := fun _ => 0, size := fun _ => 5 } (fun _ => 0) (fun _ => 1) := by
  refine region_splitting_invariance img15 ZeroFluxNeumannBoundaryCondition boxKernel1 id
    { index := fun _ => 0, size := fun _ => 5 }
    [{ index := fun _ => 0, size := fun _ => 2 },
     { index := fun _ => 2, size := fun _ => 3 }]
    (fun _ => 0) ?_ ?_ (fun _ => 1)
  · intro c
    constructor
    · intro h
      have hh : (0 : ℤ) ≤ c 0 ∧ c 0 < 0 + ((5 : ℕ) : ℤ) := h 0
      by_cases hlt : c 0 < 2
      · exact ⟨{ index := fun _ => 0, size := fun _ => 2 }, by simp,
          (inRegion_one _ c).mpr (show (0 : ℤ) ≤ c 0 ∧ c 0 < 0 + ((2 : ℕ) : ℤ) by omega)⟩
      · exact ⟨{ index := fun _ => 2, size := fun _ => 3 }, by simp,
          (inRegion_one _ c).mpr (show (2 : ℤ) ≤ c 0 ∧ c 0 < 2 + ((3 : ℕ) : ℤ) by omega)⟩
    · rintro ⟨r, hr, hcr⟩
      rcases List.mem_cons.mp hr with hr1 | hr'
      · rw [hr1] at hcr
        have hh : (0 : ℤ) ≤ c 0 ∧ c 0 < 0 + ((2 : ℕ) : ℤ) := hcr 0
        exact (inRegion_one _ c).mpr
          (show (0 : ℤ) ≤ c 0 ∧ c 0 < 0 + ((5 : ℕ) : ℤ) by omega)
      · have hr2 : r = { index := fun _ => 2, size := fun _ => 3 } := by simpa using hr'
        rw [hr2] at hcr
        have hh : (2 : ℤ) ≤ c 0 ∧ c 0 < 2 + ((3 : ℕ) : ℤ) := hcr 0
        exact (inRegion_one _ c).mpr
          (show (0 : ℤ) ≤ c 0 ∧ c 0 < 0 + ((5 : ℕ) : ℤ) by omega)
  · refine List.pairwise_cons.mpr ⟨?_, List.pairwise_singleton _ _⟩
    intro r hr c hc
    have hr2 : r = { index := fun _ => 2, size := fun _ => 3 } := by simpa using hr
    rw [hr2] at hc
    have h1 : (0 : ℤ) ≤ c 0 ∧ c 0 < 0 + ((2 : ℕ) : ℤ) := hc.1 0
    have h2 : (2 : ℤ) ≤ c 0 ∧ c 0 < 2 + ((3 : ℕ) : ℤ) := hc.2 0
    omega

/-- C8: invoking the engine on an empty sub-region (zero size on some axis)
leaves every coordinate of the output grid unmodified; the model is total, so
the invocation returns without error. -/
theorem empty_region_noop {n : ℕ} (img : Image n) (bc : BoundaryPolicy n) (k : Kernel n)
    (castOut : ℤ → ℤ) (region : Region n) (out : (Fin n → ℤ) → ℤ)
    (h : ∃ i, region.size i = 0) :
    ∀ c, Apply img bc k castOut region out c = out c := by
  intro c
  unfold Apply
  rcases h with ⟨i, hi⟩
  rw [if_neg]
  intro hc
  have hci := hc i
  omega

/-- C8 witness: a concrete empty-region invocation leaves the output value
untouched. -/
theorem empty_region_noop_witness :
    Apply img15 ZeroFluxNeumannBoundaryCondition boxKernel1 id
        { index := fun _ => 0, size := fun _ => 0 } (fun _ => 7) (fun _ => 2) = 7 :=
  empty_region_noop img15 ZeroFluxNeumannBoundaryCondition boxKernel1 id
    { index := fun _ => 0, size := fun _ => 0 } (fun _ => 7) ⟨0, rfl⟩ (fun _ => 2)

/-- The footprint is closed under offset negation. -/
lemma neg_mem_footprint {n : ℕ} (r : Fin n → ℕ) (o : Fin n → ℤ) :
    -o ∈ footprint r ↔ o ∈ footprint r := by
  unfold footprint
  simp only [Fintype.mem_piFinset, Pi.neg_apply, Finset.mem_Icc]
  constructor <;> intro h i <;> have hi := h i <;> omega

/-- Correlating with the mirrored kernel computes the true convolution with
the original kernel. -/
lemma innerProduct_mirror_eq_convolution {n : ℕ} (img : Image n) (bc : BoundaryPolicy n)
    (k : Kernel n) (c : Fin n → ℤ) :
    innerProduct img bc (mirrorKernel k) c = convolutionAt img bc k c := by
  unfold innerProduct convolutionAt mirrorKernel
  refine Finset.sum_nbij' (fun o => -o) (fun o => -o)
    (fun o ho => (neg_mem_footprint _ o).mpr ho)
    (fun o ho => (neg_mem_footprint _ o).mpr ho)
    (fun o _ => neg_neg o) (fun o _ => neg_neg o) ?_
  intro o _
  rw [sub_neg_eq_add]

/-- For a kernel symmetric about its center, correlation and convolution
coincide at every coordinate. -/
lemma innerProduct_symmetric_eq_convolution {n : ℕ} (img : Image n)
    (bc : BoundaryPolicy n) (k : Kernel n) (hs : symmetricKernel k) (c : Fin n → ℤ) :
    innerProduct img bc k c = convolutionAt img bc k c := by
  rw [← innerProduct_mirror_eq_convolution img bc k c]
  unfold innerProduct mirrorKernel
  refine Finset.sum_congr rfl fun o ho => ?_
  rw [hs o ho]

/-- The delta image evaluated by the engine at the origin extracts one kernel
weight. -/
lemma innerProduct_delta {n : ℕ} (k : Kernel n) (r : Fin n → ℕ) (hrad : k.radius = r)
    (o₀ : Fin n → ℤ) (ho₀ : o₀ ∈ footprint r) :
    innerProduct (deltaImage r o₀) ZeroFluxNeumannBoundaryCondition k 0
      = k.weight o₀ := by
  subst hrad
  unfold innerProduct
  have hin : ∀ o ∈ footprint k.radius, inRegion (deltaImage k.radius o₀).extent o := by
    intro o ho i
    have hoi := Finset.mem_Icc.mp (Fintype.mem_piFinset.mp ho i)
    show -(k.radius i : ℤ) ≤ o i ∧ o i < -(k.radius i : ℤ) + ((2 * k.radius i + 1 : ℕ) : ℤ)
    omega
  have hval : ∀ o ∈ footprint k.radius,
      valueAt (deltaImage k.radius o₀) ZeroFluxNeumannBoundaryCondition (0 + o)
        = if o = o₀ then 1 else 0 := by
    intro o ho
    rw [zero_add]
    unfold valueAt
    rw [if_pos (hin o ho)]
    rfl
  rw [Finset.sum_eq_single_of_mem o₀ ho₀]
  · rw [hval o₀ ho₀, if_pos rfl, mul_one]
  · intro o ho hne
    rw [hval o ho, if_neg hne, mul_zero]

/-- C4 (amended): the engine performs correlation (each weight applied at
its own offset, never reversed); for a kernel symmetric about its center the
output equals the true convolution at every coordinate; correlating with the
offset-reversed (mirrored) kernel equals the true convolution with the
original kernel; and for a kernel that is asymmetric on its footprint the
kernel and its mirror produce different outputs on some input. -/
theorem correlation_convolution_relation {n : ℕ} (k : Kernel n) :
    (∀ (img : Image n) (bc : BoundaryPolicy n) (castOut : ℤ → ℤ) (region : Region n)
        (out : (Fin n → ℤ) → ℤ) (c : Fin n → ℤ), inRegion region c →
        Apply img bc k castOut region out c
          = castOut (∑ o ∈ footprint k.radius, k.weight o * valueAt img bc (c + o))) ∧
    (symmetricKernel k → ∀ (img : Image n) (bc : BoundaryPolicy n) (c : Fin n → ℤ),
        innerProduct img bc k c = convolutionAt img bc k c) ∧
    (∀ (img : Image n) (bc : BoundaryPolicy n) (c : Fin n → ℤ),
        innerProduct img bc (mirrorKernel k) c = convolutionAt img bc k c) ∧
    ((∃ o ∈ footprint k.radius, k.weight (-o) ≠ k.weight o) →
      ∃ (img : Image n) (c : Fin n → ℤ),
        innerProduct img ZeroFluxNeumannBoundaryCondition k c
          ≠ innerProduct img ZeroFluxNeumannBoundaryCondition (mirrorKernel k) c) := by
  refine ⟨?_, ?_, ?_, ?_⟩
  · intro img bc castOut region out c hc
    unfold Apply
    rw [if_pos hc]
    rfl
  · intro hs img bc c
    exact innerProduct_symmetric_eq_convolution img bc k hs c
  · intro img bc c
    exact innerProduct_mirror_eq_convolution img bc k c
  · rintro ⟨o₀, ho₀, hw⟩
    refine ⟨deltaImage k.radius o₀, 0, ?_⟩
    rw [innerProduct_delta k k.radius rfl o₀ ho₀]
    rw [innerProduct_delta (mirrorKernel k) k.radius rfl o₀ ho₀]
    exact fun h => hw h.symm

/-- C4 counterexample: for the asymmetric kernel `[1,0,0]` on the grid
[1,2,3,4,5], the outputs of the kernel and of its mirrored kernel are not
reflections of one another: the mirrored-kernel output at index 0 is 2, while
the original output at the reflected indices (4 across the region center, 0
across the center offset) is 4 and 1 respectively. -/
theorem correlation_mirror_not_reflection_cx :
    (∃ o ∈ footprint shiftKernelLeft.radius,
        shiftKernelLeft.weight (-o) ≠ shiftKernelLeft.weight o) ∧
    Apply img15 ZeroFluxNeumannBoundaryCondition (mirrorKernel shiftKernelLeft) id
        { index := fun _ => 0, size := fun _ => 5 } (fun _ => 0) (fun _ => 0) = 2 ∧
    Apply img15 ZeroFluxNeumannBoundaryCondition shiftKernelLeft id
        { index := fun _ => 0, size := fun _ => 5 } (fun _ => 0) (fun _ => 4) = 4 ∧
    Apply img15 ZeroFluxNeumannBoundaryCondition shiftKernelLeft id
        { index := fun _ => 0, size := fun _ => 5 } (fun _ => 0) (fun _ => 0) = 1 ∧
    Apply img15 ZeroFluxNeumannBoundaryCondition (mirrorKernel shiftKernelLeft) id
        { index := fun _ => 0, size := fun _ => 5 } (fun _ => 0) (fun _ => 0)
      ≠ Apply img15 ZeroFluxNeumannBoundaryCondition shiftKernelLeft id
          { index := fun _ => 0, size := fun _ => 5 } (fun _ => 0) (fun _ => 4) ∧
    Apply img15 ZeroFluxNeumannBoundaryCondition (mirrorKernel shiftKernelLeft) id
        { index := fun _ => 0, size := fun _ => 5 } (fun _ => 0) (fun _ => 0)
      ≠ Apply img15 ZeroFluxNeumannBoundaryCondition shiftKernelLeft id
          { index := fun _ => 0, size := fun _ => 5 } (fun _ => 0) (fun _ => 0) := by
  refine ⟨by decide, by decide, by decide, by decide, by decide, by decide⟩

/-- C4 witness: the box kernel is symmetric, so its correlation equals the
true convolution at a concrete coordinate; and the asymmetric kernel `[1,0,0]`
admits an input on which it and its mirror disagree. -/
theorem correlation_convolution_relation_witness :
    (innerProduct img15 ZeroFluxNeumannBoundaryCondition boxKernel1 (fun _ => 2)
      = convolutionAt img15 ZeroFluxNeumannBoundaryCondition boxKernel1 (fun _ => 2)) ∧
    (∃ (img : Image 1) (c : Fin 1 → ℤ),
      innerProduct img ZeroFluxNeumannBoundaryCondition shiftKernelLeft c
        ≠ innerProduct img ZeroFluxNeumannBoundaryCondition (mirrorKernel shiftKernelLeft) c) :=
  ⟨(correlation_convolution_relation boxKernel1).2.1 (by decide)
      img15 ZeroFluxNeumannBoundaryCondition (fun _ => 2),
   (correlation_convolution_relation shiftKernelLeft).2.2.2 (by decide)⟩

/-- C5: `SetOperator` stores a private copy of the kernel: `GetOperator`
returns a kernel equal to the argument, the stage is marked modified, and
every later output is computed from the stored kernel value (so no change to
the caller's own object can be observed). -/
theorem set_operator_stores_private_copy {n : ℕ}
    (s : NeighborhoodOperatorImageFilter n) (k : Kernel n) :
    GetOperator (SetOperator k s) = k ∧
    (SetOperator k s).mtime = s.mtime + 1 ∧
    (∀ (img : Image n) (castOut : ℤ → ℤ) (region : Region n)
        (out : (Fin n → ℤ) → ℤ),
      runFilterRegion (SetOperator k s) img castOut region out
        = Apply img (resolveBoundaryCondition s.m_BoundsCondition) k castOut region out) :=
  ⟨rfl, rfl, fun _ _ _ _ => rfl⟩

/-- C5 witness: a concrete `SetOperator` call followed by `GetOperator`
returns the stored kernel. -/
theorem set_operator_stores_private_copy_witness :
    GetOperator (SetOperator boxKernel1
        (mkNeighborhoodOperatorImageFilter shiftKernelLeft)) = boxKernel1 :=
  (set_operator_stores_private_copy
    (mkNeighborhoodOperatorImageFilter shiftKernelLeft) boxKernel1).1

/-- C9: immediately after construction the boundary-condition pointer is
non-null — it points at the engine-owned default ZeroFluxNeumann member,
which resolves out-of-bounds lookups by clamping — `SetOperator` leaves it
untouched, and after `OverrideBoundaryCondition p` the getter returns exactly
`p`, even when `p` is the null pointer. -/
theorem boundary_condition_pointer_invariant {n : ℕ} (k₀ k : Kernel n)
    (s : NeighborhoodOperatorImageFilter n) (p : ImageBoundaryConditionPointerType n) :
    GetBoundaryCondition (mkNeighborhoodOperatorImageFilter k₀)
        = ImageBoundaryConditionPointerType.defaultNeumann ∧
    GetBoundaryCondition (mkNeighborhoodOperatorImageFilter k₀)
        ≠ ImageBoundaryConditionPointerType.null ∧
    (∀ (img : Image n) (c : Fin n → ℤ),
      resolveBoundaryCondition
          (GetBoundaryCondition (mkNeighborhoodOperatorImageFilter k₀)) img c
        = img.pix (clampCoord img.extent c)) ∧
    GetBoundaryCondition (SetOperator k (mkNeighborhoodOperatorImageFilter k₀))
        = ImageBoundaryConditionPointerType.defaultNeumann ∧
    GetBoundaryCondition (OverrideBoundaryCondition p s) = p :=
  ⟨rfl, fun h => ImageBoundaryConditionPointerType.noConfusion h,
   fun _ _ => rfl, rfl, rfl⟩

/-- C9 witness: overriding with the null pointer makes the getter return
exactly the null pointer. -/
theorem boundary_condition_pointer_invariant_witness :
    GetBoundaryCondition (OverrideBoundaryCondition
        (ImageBoundaryConditionPointerType.null : ImageBoundaryConditionPointerType 1)
        (mkNeighborhoodOperatorImageFilter boxKernel1))
      = ImageBoundaryConditionPointerType.null :=
  (boundary_condition_pointer_invariant boxKernel1 boxKernel1
    (mkNeighborhoodOperatorImageFilter boxKernel1)
    ImageBoundaryConditionPointerType.null).2.2.2.2

/-- C6: for every output storage instantiation, the accumulation type
`ComputingPixelType` is a distinct, higher-precision type, and the engine
narrows only the final accumulated sum: the written pixel is `castOut`
applied once, outside the whole reduction. -/
theorem accumulation_type_higher_precision :
    (∀ t ∈ storageInstantiations,
      ComputingPixelType t ≠ t ∧ precisionBits t < precisionBits (ComputingPixelType t)) ∧
    (∀ (n : ℕ) (img : Image n) (bc : BoundaryPolicy n) (k : Kernel n)
        (castOut : ℤ → ℤ) (region : Region n) (out : (Fin n → ℤ) → ℤ)
        (c : Fin n → ℤ), inRegion region c →
      Apply img bc k castOut region out c
        = castOut (∑ o ∈ footprint k.radius, k.weight o * valueAt img bc (c + o))) := by
  refine ⟨by decide, ?_⟩
  intro n img bc k castOut region out c hc
  unfold Apply
  rw [if_pos hc]
  rfl

/-- C6 witness: the `uint8` instantiation accumulates in a distinct type, and
a concrete engine invocation equals the once-narrowed sum. -/
theorem accumulation_type_higher_precision_witness :
    (ComputingPixelType PixelComponentType.uint8 ≠ PixelComponentType.uint8 ∧
      precisionBits PixelComponentType.uint8
        < precisionBits (ComputingPixelType PixelComponentType.uint8)) ∧
    Apply img15 ZeroFluxNeumannBoundaryCondition boxKernel1 id
        { index := fun _ => 0, size := fun _ => 5 } (fun _ => 0) (fun _ => 2)
      = id (∑ o ∈ footprint boxKernel1.radius,
          boxKernel1.weight o
            * valueAt img15 ZeroFluxNeumannBoundaryCondition ((fun _ => 2) + o)) :=
  ⟨accumulation_type_higher_precision.1 PixelComponentType.uint8 (by decide),
   accumulation_type_higher_precision.2 1 img15 ZeroFluxNeumannBoundaryCondition
     boxKernel1 id { index := fun _ => 0, size := fun _ => 5 } (fun _ => 0)
     (fun _ => 2) (by decide)⟩

/-- A successful `find?` result is the first match: it satisfies the
predicate and everything before it in the list fails it. -/
lemma find?_first_match {α : Type} (p : α → Bool) (l : List α) (a : α)
    (h : l.find? p = some a) :
    p a = true ∧ ∃ pre post, l = pre ++ a :: post ∧ ∀ x ∈ pre, p x = false := by
  induction l with
  | nil => simp at h
  | cons b rest ih =>
    by_cases hb : p b = true
    · rw [List.find?_cons_of_pos rest hb] at h
      cases h
      exact ⟨hb, [], rest, rfl, by simp⟩
    · rw [List.find?_cons_of_neg rest (by simpa using hb)] at h
      obtain ⟨hpa, pre, post, hsplit, hpre⟩ := ih h
      refine ⟨hpa, b :: pre, post, by rw [hsplit]; rfl, ?_⟩
      intro x hx
      rcases List.mem_cons.mp hx with hxb | hxpre
      · rw [hxb]
        exact Bool.eq_false_iff.mpr hb
      · exact hpre x hxpre

/-- When every `dynamic_cast` succeeds, the collected candidate list is the
registered list in registration order. -/
lemma collect_ok_registration_order (registered : List (Option VideoIOBase))
    (cs : List VideoIOBase) (h : collectVideoCandidates registered = Except.ok cs) :
    registered = cs.map some := by
  induction registered generalizing cs with
  | nil =>
    cases h
    rfl
  | cons hd rest ih =>
    cases hd with
    | none => exact absurd h (by simp [collectVideoCandidates])
    | some v =>
      unfold collectVideoCandidates at h
      cases hrest : collectVideoCandidates rest with
      | error e =>
        rw [hrest] at h
        exact absurd h (by simp [Except.map])
      | ok cs' =>
        rw [hrest] at h
        simp only [Except.map] at h
        cases h
        simp [ih cs' hrest]

/-- C7: `CreateVideoIO` probes the successfully cast candidates in
registration order with the capability query matching the mode
(`CanReadFile` / `CanReadCamera` / `CanWriteFile`) and returns the first
affirmative one, or the null result when none answers affirmatively. -/
theorem create_video_io_first_match (stoi : String → ℤ)
    (registered : List (Option VideoIOBase)) (mode : IOModeEnum) (arg : String) :
    (∀ v : VideoIOBase,
      capabilityQuery stoi IOModeEnum.ReadFileMode arg v = v.CanReadFile arg ∧
      capabilityQuery stoi IOModeEnum.ReadCameraMode arg v = v.CanReadCamera (stoi arg) ∧
      capabilityQuery stoi IOModeEnum.WriteMode arg v = v.CanWriteFile arg) ∧
    (∀ cs, collectVideoCandidates registered = Except.ok cs →
      registered = cs.map some ∧
      CreateVideoIO stoi registered mode arg
        = Except.ok (cs.find? (capabilityQuery stoi mode arg)) ∧
      (∀ v, cs.find? (capabilityQuery stoi mode arg) = some v →
        capabilityQuery stoi mode arg v = true ∧
        ∃ pre post, cs = pre ++ v :: post ∧
          ∀ u ∈ pre, capabilityQuery stoi mode arg u = false) ∧
      (cs.find? (capabilityQuery stoi mode arg) = none ↔
        ∀ v ∈ cs, capabilityQuery stoi mode arg v = false)) := by
  refine ⟨fun v => ⟨rfl, rfl, rfl⟩, ?_⟩
  intro cs hcs
  refine ⟨collect_ok_registration_order registered cs hcs, ?_, ?_, ?_⟩
  · unfold CreateVideoIO
    rw [hcs]
    rfl
  · exact fun v hv => find?_first_match _ cs v hv
  · rw [List.find?_eq_none]
    constructor
    · intro h v hv
      exact Bool.eq_false_iff.mpr (h v hv)
    · intro h v hv hq
      rw [h v hv] at hq
      cases hq

/-- C7 witness: with a failing candidate registered before a succeeding one,
the factory returns the first-match result of the probe. -/
theorem create_video_io_first_match_witness :
    CreateVideoIO (fun _ => 0) [some videoHandlerNo, some videoHandlerYes]
        IOModeEnum.ReadFileMode "file.avi"
      = Except.ok (([videoHandlerNo, videoHandlerYes] : List VideoIOBase).find?
          (capabilityQuery (fun _ => 0) IOModeEnum.ReadFileMode "file.avi")) :=
  ((create_video_io_first_match (fun _ => 0) [some videoHandlerNo, some videoHandlerYes]
      IOModeEnum.ReadFileMode "file.avi").2
    [videoHandlerNo, videoHandlerYes] rfl).2.1

/-- C10: if any registered object for the "itkVideoIOBase" key is not a
`VideoIOBase`, `CreateVideoIO` raises the descriptive exception — whatever
the mode, the argument and every candidate's capabilities — instead of
skipping the ill-typed instance or returning a result. -/
theorem bad_cast_raises_before_probing (stoi : String → ℤ)
    (registered : List (Option VideoIOBase)) (mode : IOModeEnum) (arg : String)
    (h : none ∈ registered) :
    CreateVideoIO stoi registered mode arg
      = Except.error "VideoIO factory did not return a VideoIOBase" := by
  unfold CreateVideoIO
  suffices hs : collectVideoCandidates registered
      = Except.error "VideoIO factory did not return a VideoIOBase" by
    rw [hs]
    rfl
  induction registered with
  | nil => simp at h
  | cons hd rest ih =>
    cases hd with
    | none => rfl
    | some v =>
      have hmem : none ∈ rest := by
        rcases List.mem_cons.mp h with h' | h'
        · exact absurd h' (by simp)
        · exact h'
      unfold collectVideoCandidates
      rw [ih hmem]
      rfl

/-- C10 witness: even with an affirmative candidate registered first, one
ill-typed registration makes the factory raise instead of returning it. -/
theorem bad_cast_raises_before_probing_witness :
    CreateVideoIO (fun _ => 0) [some videoHandlerYes, none]
        IOModeEnum.ReadFileMode "file.avi"
      = Except.error "VideoIO factory did not return a VideoIOBase" :=
  bad_cast_raises_before_probing (fun _ => 0) [some videoHandlerYes, none]
    IOModeEnum.ReadFileMode "file.avi" (by simp)

end ITK
